import Mathlib

/-!
Verification of the spreadsheet-to-schedule derivation engine of the
driver_DBUPDATE repository.  The Python sources under
`src/backend/services/excel_parser.py`, `src/backend/api/routes/upload.py`
and `src/backend/services/database_service.py` are shallowly embedded below:
Python strings become `Str` (a list of code points, matching Python's
sequence-of-code-points semantics), `datetime.date` becomes `Date`,
dictionaries become association lists, and the database table touched by
`create_availability` becomes a list of records with an explicit upsert.
-/

/-- Python strings are sequences of code points; we model them as `List Char`.
(Lean's builtin `String` operations do not reduce in the kernel.) -/
abbrev Str := List Char

/-- ASCII uppercase mapping of one character (the route codes and duty codes
appearing in the spreadsheet are ASCII, matching `str.upper` there). -/
def pyUpperChar (c : Char) : Char :=
  if 'a' ≤ c ∧ c ≤ 'z' then Char.ofNat (c.toNat - 32) else c

/-- ASCII lowercase mapping of one character, matching `str.lower` on ASCII. -/
def pyLowerChar (c : Char) : Char :=
  if 'A' ≤ c ∧ c ≤ 'Z' then Char.ofNat (c.toNat + 32) else c

/-- Embeds Python `str.upper()`. -/
def pyUpper (s : Str) : Str := s.map pyUpperChar

/-- Embeds Python `str.lower()`. -/
def pyLower (s : Str) : Str := s.map pyLowerChar

/-- Embeds Python `str.strip()`: remove leading and trailing whitespace. -/
def pyStrip (s : Str) : Str :=
  ((s.dropWhile Char.isWhitespace).reverse.dropWhile Char.isWhitespace).reverse

/-- Embeds Python `s.endswith(suffix)`. -/
def pyEndsWith (s suffix : Str) : Bool := suffix.isSuffixOf s

/-- Embeds Python `s.split(sep)` for a one-character separator. -/
def pySplitOnChar (sep : Char) : Str → List Str
  | [] => [[]]
  | c :: rest =>
    match pySplitOnChar sep rest with
    | [] => [[]]
    | h :: t => if c = sep then [] :: h :: t else (c :: h) :: t

/-- Digits of a natural number (fuel-driven so that it reduces in the kernel). -/
def natToStrAux : Nat → Nat → Str
  | 0, _ => []
  | fuel + 1, n =>
    if n < 10 then [Nat.digitChar n]
    else natToStrAux fuel (n / 10) ++ [Nat.digitChar (n % 10)]

/-- Embeds Python `str(n)` for a nonnegative integer. -/
def natToStr (n : Nat) : Str := natToStrAux (n + 1) n

/-- Embeds Python `str(i)` for an integer. -/
def intToStr (i : Int) : Str :=
  if i < 0 then '-' :: natToStr i.natAbs else natToStr i.natAbs

/-- Embeds the Python format spec `f"{i:02d}"`. -/
def fmt02Int (i : Int) : Str :=
  if 0 ≤ i ∧ i < 10 then '0' :: natToStr i.natAbs else intToStr i

/-- Embeds the Python format spec `f"{n:02d}"` for naturals. -/
def fmt02Nat (n : Nat) : Str := if n < 10 then '0' :: natToStr n else natToStr n

/-- Embeds Python `int(q)` on an exact rational: truncation toward zero. -/
def pyTrunc (q : ℚ) : Int := q.num / (q.den : Int)

/-- Embeds Python `str(timedelta(seconds=t))` (the `H:MM:SS` rendering with a
day prefix when the span reaches a day). -/
def pyStrTimedelta (t : Int) : Str :=
  let d := Int.fdiv t 86400
  let rem := (Int.emod t 86400).toNat
  let h := rem / 3600
  let m := rem % 3600 / 60
  let s := rem % 60
  let base := natToStr h ++ ':' :: (fmt02Nat m ++ ':' :: fmt02Nat s)
  if d = 0 then base
  else intToStr d ++ (if d = 1 ∨ d = -1 then " day, ".data else " days, ".data) ++ base

/-- Fractional-digit expansion used by `pyStrFloat` (fuel-driven). -/
def fracDigitsAux : Nat → ℚ → Str
  | 0, _ => []
  | fuel + 1, x =>
    if x = 0 then []
    else
      let y := x * 10
      let d := pyTrunc y
      Nat.digitChar d.natAbs :: fracDigitsAux fuel (y - (d : ℚ))

/-- Embeds Python `str(f)` for a float; binary-float formatting is approximated
by the exact decimal expansion of the rational value (agrees with CPython on
the decimally-representable cell values that occur). -/
def pyStrFloat (q : ℚ) : Str :=
  let sign : Str := if q < 0 then ['-'] else []
  let aq := |q|
  let ip := pyTrunc aq
  let frac := aq - (ip : ℚ)
  let ds := fracDigitsAux 17 frac
  sign ++ natToStr ip.natAbs ++ '.' :: (if ds = [] then ['0'] else ds)

/-- Raw spreadsheet cell values as delivered by openpyxl to the parser:
absent, string, native datetime (only its hour/minute are read), an elapsed
`timedelta` (in whole seconds), or a number. -/
inductive CellValue where
  | vNone
  | vStr (s : Str)
  | vDatetime (hour minute : Nat)
  | vTimedelta (totalSeconds : Int)
  | vInt (n : Int)
  | vFloat (q : ℚ)
deriving DecidableEq

/-- Shared numeric branch of `_parse_time_to_hours`:
`hours = int(value); minutes = int((value - hours) * 60)`. -/
def numToHM (q : ℚ) : Str :=
  let hours := pyTrunc q
  let minutes := pyTrunc ((q - (hours : ℚ)) * 60)
  fmt02Int hours ++ ':' :: fmt02Int minutes

/-- Embeds `ExcelParser._parse_time` (excel_parser.py lines 909-921): the
time-of-day coercion.  The literal string `"00:00"` means "route does not
run" and is coerced to absence. -/
def parseTime : CellValue → Option Str
  | .vNone => none
  | .vDatetime h m => some (fmt02Nat h ++ ':' :: fmt02Nat m)
  | .vStr s => if s = "00:00".data then none else some (pyStrip s)
  | .vTimedelta t => some (pyStrTimedelta t)
  | .vInt n => some (intToStr n)
  | .vFloat q => some (pyStrFloat q)

/-- Embeds `ExcelParser._parse_time_to_hours` (excel_parser.py lines 843-869):
the duration-as-hours coercion, for which `"00:00"` is a valid zero duration. -/
def parseTimeToHours : CellValue → Option Str
  | .vNone => none
  | .vTimedelta t =>
    let totalSeconds := t
    let hours := Int.fdiv totalSeconds 3600
    let minutes := Int.fdiv (Int.emod totalSeconds 3600) 60
    some (fmt02Int hours ++ ':' :: fmt02Int minutes)
  | .vDatetime h m => some (fmt02Nat h ++ ':' :: fmt02Nat m)
  | .vStr s =>
    let s := pyStrip s
    if s = "00:00".data ∨ s = [] then some ("00:00".data)
    else if s.contains ':' then some s
    else some s
  | .vInt n => some (numToHM (n : ℚ))
  | .vFloat q => some (numToHM q)

/-- Embeds `ExcelParser._determine_employment_type` (excel_parser.py lines
833-841).  Python's `if not percentage` is truthiness: it catches both `None`
and a zero percentage. -/
def determineEmploymentType (percentage : Option Int) : Str :=
  match percentage with
  | none => "unknown".data
  | some p =>
    if p = 0 then "unknown".data
    else if 100 ≤ p then "full_time".data
    else if 80 ≤ p then "reduced_hours".data
    else "part_time".data

/-! ## Calendar dates

`datetime.date` is embedded as a proleptic Gregorian date; `+ timedelta(days=n)`
becomes `addDays`. -/

structure Date where
  year : Nat
  month : Nat
  day : Nat
deriving DecidableEq

/-- Gregorian leap-year rule. -/
def isLeap (y : Nat) : Bool := (y % 4 == 0 && y % 100 != 0) || y % 400 == 0

/-- Days in a month of a given year. -/
def daysInMonth (y m : Nat) : Nat :=
  if m = 2 then (if isLeap y then 29 else 28)
  else if m = 4 ∨ m = 6 ∨ m = 9 ∨ m = 11 then 30
  else 31

/-- The successor date. -/
def nextDay (d : Date) : Date :=
  if d.day < daysInMonth d.year d.month then ⟨d.year, d.month, d.day + 1⟩
  else if d.month < 12 then ⟨d.year, d.month + 1, 1⟩
  else ⟨d.year + 1, 1, 1⟩

/-- Embeds Python `d + timedelta(days=n)`. -/
def addDays (d : Date) : Nat → Date
  | 0 => d
  | n + 1 => nextDay (addDays d n)

/-- Embeds Python date comparison `a <= b` (lexicographic on year, month, day). -/
def dateLe (a b : Date) : Bool :=
  decide (a.year < b.year ∨ (a.year = b.year ∧
    (a.month < b.month ∨ (a.month = b.month ∧ a.day ≤ b.day))))

/-- Embeds Python date comparison `a < b`. -/
def dateLt (a b : Date) : Bool := dateLe a b && !(decide (a = b))

/-- A structurally well-formed Gregorian date (what `datetime.date` admits). -/
def validDate (d : Date) : Prop :=
  1 ≤ d.month ∧ d.month ≤ 12 ∧ 1 ≤ d.day ∧ d.day ≤ daysInMonth d.year d.month

instance (d : Date) : Decidable (validDate d) := by unfold validDate; infer_instance

/-- Linear rank used only to separate distinct in-week dates. -/
def dateRank (d : Date) : Nat := d.year * 416 + d.month * 32 + d.day

/-- Day-of-week index, 0 = Sunday (Sakamoto's method), matching what
`strftime('%A')` reports. -/
def dayOfWeekIdx (d : Date) : Nat :=
  let t := [0, 3, 2, 5, 0, 3, 5, 1, 4, 6, 2, 4]
  let y := if d.month < 3 then d.year - 1 else d.year
  (y + y / 4 - y / 100 + y / 400 + t.getD (d.month - 1) 0 + d.day) % 7

/-- English weekday names as produced by `strftime('%A')` in the C locale. -/
def dayName (d : Date) : Str :=
  (["Sunday".data, "Monday".data, "Tuesday".data, "Wednesday".data,
    "Thursday".data, "Friday".data, "Saturday".data]).getD (dayOfWeekIdx d) []

/-- Embeds `ExcelParser._get_season_for_date` (excel_parser.py lines 891-896):
summer for months 6-9, winter otherwise. -/
def getSeasonForDate (d : Date) : Str :=
  if 6 ≤ d.month ∧ d.month ≤ 9 then "summer".data else "winter".data

/-- Embeds `ExcelParser._get_season_key`: `f"{season}_{school_status}"`. -/
def getSeasonKey (season schoolStatus : Str) : Str := season ++ '_' :: schoolStatus

/-! ## Date lemmas -/

theorem daysInMonth_le_31 (y m : Nat) : daysInMonth y m ≤ 31 := by
  unfold daysInMonth
  split_ifs <;> omega

theorem daysInMonth_pos (y m : Nat) : 1 ≤ daysInMonth y m := by
  unfold daysInMonth
  split_ifs <;> omega

theorem nextDay_valid {d : Date} (h : validDate d) : validDate (nextDay d) := by
  obtain ⟨h1, h2, h3, h4⟩ := h
  have p1 := daysInMonth_pos d.year (d.month + 1)
  have p2 := daysInMonth_pos (d.year + 1) 1
  unfold validDate nextDay
  split_ifs with hd hm <;> dsimp only <;> omega

theorem rank_lt_nextDay {d : Date} (h : validDate d) :
    dateRank d < dateRank (nextDay d) := by
  obtain ⟨h1, h2, h3, h4⟩ := h
  have h31 := daysInMonth_le_31 d.year d.month
  unfold nextDay dateRank
  split_ifs with hd hm <;> dsimp only <;> omega

theorem addDays_valid {d : Date} (h : validDate d) (n : Nat) :
    validDate (addDays d n) := by
  induction n with
  | zero => exact h
  | succ n ih => exact nextDay_valid ih

theorem rank_addDays_strictMono {d : Date} (h : validDate d) {m n : Nat}
    (hmn : m < n) : dateRank (addDays d m) < dateRank (addDays d n) := by
  induction n with
  | zero => omega
  | succ n ih =>
    have hv : validDate (addDays d n) := addDays_valid h n
    rcases Nat.lt_succ_iff_lt_or_eq.mp hmn with hlt | heq
    · exact lt_trans (ih hlt) (rank_lt_nextDay hv)
    · subst heq; exact rank_lt_nextDay hv

theorem addDays_ne {d : Date} (h : validDate d) {m n : Nat} (hmn : m < n) :
    addDays d m ≠ addDays d n := by
  intro he
  have := rank_addDays_strictMono h hmn
  rw [he] at this
  omega

/-! ## Claim C9 and C10 theorems -/

/-- C9: the two time coercions are never conflated on the zero sentinel:
`_parse_time` sends the string `"00:00"` to absence, while
`_parse_time_to_hours` sends the string `"00:00"` to the value `"00:00"`. -/
theorem C9_zero_sentinel_coercions :
    parseTime (CellValue.vStr ("00:00".data)) = none ∧
    parseTimeToHours (CellValue.vStr ("00:00".data)) = some ("00:00".data) := by
  constructor <;> rfl

/-- C10 counterexample: the claim states the classification is `"unknown"`
exactly when the percentage is absent and `"part_time"` for every other
present value below 80; but `_determine_employment_type` maps the present
percentage `0` to `"unknown"` (Python truthiness), not `"part_time"`. -/
theorem C10_counterexample :
    determineEmploymentType (some 0) = "unknown".data ∧
    "unknown".data ≠ "part_time".data ∧ (some 0 ≠ (none : Option Int)) := by
  refine ⟨rfl, by decide, by decide⟩

/-- C10 (amended): classification is `"full_time"` iff a nonzero percentage
≥ 100 is present, `"reduced_hours"` iff one in [80,100) is present,
`"part_time"` iff a nonzero one below 80 is present, and `"unknown"` exactly
when the percentage is absent or zero (Python `if not percentage`). -/
theorem C10_amended_classification (p : Option Int) :
    (determineEmploymentType p = "full_time".data ↔
      ∃ v, p = some v ∧ v ≠ 0 ∧ 100 ≤ v) ∧
    (determineEmploymentType p = "reduced_hours".data ↔
      ∃ v, p = some v ∧ 80 ≤ v ∧ v < 100) ∧
    (determineEmploymentType p = "part_time".data ↔
      ∃ v, p = some v ∧ v ≠ 0 ∧ v < 80) ∧
    (determineEmploymentType p = "unknown".data ↔ p = none ∨ p = some 0) := by
  match p with
  | none =>
    refine ⟨⟨fun h => absurd h (by decide), ?_⟩, ⟨fun h => absurd h (by decide), ?_⟩,
      ⟨fun h => absurd h (by decide), ?_⟩, ⟨fun _ => Or.inl rfl, fun _ => rfl⟩⟩
    all_goals rintro ⟨v, hv, _⟩; cases hv
  | some v =>
    simp only [determineEmploymentType]
    split_ifs with h0 h100 h80
    · refine ⟨⟨fun h => absurd h (by decide), ?_⟩, ⟨fun h => absurd h (by decide), ?_⟩,
        ⟨fun h => absurd h (by decide), ?_⟩,
        ⟨fun _ => Or.inr (by rw [h0]), fun _ => rfl⟩⟩
      all_goals rintro ⟨w, hw, hw1, hw2⟩
      all_goals exact absurd (Option.some.inj hw) (by omega)
    · refine ⟨⟨fun _ => ⟨v, rfl, h0, h100⟩, fun _ => rfl⟩,
        ⟨fun h => absurd h (by decide), ?_⟩,
        ⟨fun h => absurd h (by decide), ?_⟩,
        ⟨fun h => absurd h (by decide), ?_⟩⟩
      · rintro ⟨w, hw, hw1, hw2⟩
        exact absurd (Option.some.inj hw) (by omega)
      · rintro ⟨w, hw, hw1, hw2⟩
        exact absurd (Option.some.inj hw) (by omega)
      · rintro (h | h)
        · exact h.elim
        · exact absurd (Option.some.inj h) h0
    · refine ⟨⟨fun h => absurd h (by decide), ?_⟩,
        ⟨fun _ => ⟨v, rfl, h80, by omega⟩, fun _ => rfl⟩,
        ⟨fun h => absurd h (by decide), ?_⟩,
        ⟨fun h => absurd h (by decide), ?_⟩⟩
      · rintro ⟨w, hw, hw1, hw2⟩
        exact absurd (Option.some.inj hw) (by omega)
      · rintro ⟨w, hw, hw1, hw2⟩
        exact absurd (Option.some.inj hw) (by omega)
      · rintro (h | h)
        · exact h.elim
        · exact absurd (Option.some.inj h) h0
    · refine ⟨⟨fun h => absurd h (by decide), ?_⟩,
        ⟨fun h => absurd h (by decide), ?_⟩,
        ⟨fun _ => ⟨v, rfl, h0, by omega⟩, fun _ => rfl⟩,
        ⟨fun h => absurd h (by decide), ?_⟩⟩
      · rintro ⟨w, hw, hw1, hw2⟩
        exact absurd (Option.some.inj hw) (by omega)
      · rintro ⟨w, hw, hw1, hw2⟩
        exact absurd (Option.some.inj hw) (by omega)
      · rintro (h | h)
        · exact h.elim
        · exact absurd (Option.some.inj h) h0

/-! ## Route expansion (`parse_dienste_sheet` pipeline)

The weekly route expansion of `ExcelParser._generate_weekly_routes`
(excel_parser.py lines 544-656). -/

structure Holiday where
  date : Date
  name : Str
deriving DecidableEq

/-- The holiday dates falling inside the 7-day window, as computed at the top
of both `_generate_weekly_routes` and `parse_fixed_assignments`. -/
def holidayDatesIn (weekStart : Date) (hols : List Holiday) : List Date :=
  (hols.filter (fun h => dateLe weekStart h.date && dateLt h.date (addDays weekStart 7))).map
    (fun h => h.date)

/-- One row of the route-definition table (`_parse_route_definitions`). -/
structure RouteDef where
  linien_dienst : Option Str
  dienst_nr : Str
  vad_mit_schule : Option Str
  vad_ohne_schule : Option Str
  diaten : Option ℚ
  tag : Option Str
  kfz_ort : Option Str
  is_special_duty : Bool
deriving DecidableEq

/-- The `details` bag attached to a generated route entry.  Fields absent for a
given entry kind are `none`. -/
structure RouteDetails where
  rtype : Str
  duration_hours : Option ℚ
  diaten : Option ℚ
  vad_time : Option Str
  location : Option Str
  duty_code : Option Str
  duty_name : Option Str
  season : Str
  school_status : Str
deriving DecidableEq

/-- One element of `self.data['routes']`. -/
structure RouteEntry where
  date : Date
  route_name : Str
  day_of_week : Str
  details : RouteDetails
deriving DecidableEq

/-- Embeds `self.data['school_days'].get(current_date, True)`. -/
def lookupSchool (schoolDays : List (Date × Bool)) (d : Date) : Bool :=
  match schoolDays.find? (fun p => decide (p.1 = d)) with
  | some p => p.2
  | none => true

/-- The `school_days` dictionary entry for a date, when present. -/
def lookupSchoolOpt (schoolDays : List (Date × Bool)) (d : Date) : Option Bool :=
  (schoolDays.find? (fun p => decide (p.1 = d))).map (fun p => p.2)

/-- Embeds `ExcelParser._get_seasonal_routes`: `self.seasonal_routes.get(key, [])`. -/
def getSeasonalRoutes (seasonalRoutes : List (Str × List Str)) (key : Str) : List Str :=
  match seasonalRoutes.find? (fun p => decide (p.1 = key)) with
  | some p => p.2
  | none => []

/-- Dictionary access into the route-definition table. -/
def lookupRouteDef (routeDefinitions : List (Str × RouteDef)) (name : Str) :
    Option RouteDef :=
  (routeDefinitions.find? (fun p => decide (p.1 = name))).map (fun p => p.2)

/-- Embeds `route_name.upper().endswith('SA')`: the Saturday marker test. -/
def endsSA (name : Str) : Bool := pyEndsWith (pyUpper name) ("SA".data)

/-- Embeds `ExcelParser._get_duty_name`. -/
def getDutyName (code : Str) : Str :=
  if code = "MB".data then "Mobilbüro".data
  else if code = "DI".data then "Dispo".data
  else if code = "SOF".data then "Sonderfahrt".data
  else code

/-- Embeds the truthiness expression
`route_def['diaten'] if route_def['diaten'] else 0`. -/
def pyNumOr0 (x : Option ℚ) : ℚ :=
  match x with
  | none => 0
  | some d => if d = 0 then 0 else d

/-- The Saturday branch body of `_generate_weekly_routes` (lines 574-604) for a
single activation-list code: `None` when the code is skipped. -/
def saturdayRoute (routeDefinitions : List (Str × RouteDef)) (isSchoolDay : Bool)
    (season schoolStatus : Str) (currentDate : Date) (routeName : Str) :
    Option RouteEntry :=
  if !(endsSA routeName) then none
  else
    match lookupRouteDef routeDefinitions routeName with
    | none => none
    | some routeDef =>
      match (if isSchoolDay then routeDef.vad_mit_schule else routeDef.vad_ohne_schule) with
      | none => none
      | some vadTime =>
        if vadTime = [] ∨ vadTime = "00:00".data then none
        else some ⟨currentDate, routeName, dayName currentDate,
          ⟨"saturday".data, some (pyNumOr0 routeDef.diaten), routeDef.diaten,
           some vadTime, routeDef.kfz_ort, none, none, season, schoolStatus⟩⟩

/-- The weekday branch body of `_generate_weekly_routes` (lines 608-652) for a
single activation-list code, including the `DI`/`MB` special-duty fallback. -/
def weekdayRoute (routeDefinitions : List (Str × RouteDef)) (isSchoolDay : Bool)
    (season schoolStatus : Str) (currentDate : Date) (routeName : Str) :
    Option RouteEntry :=
  if endsSA routeName then none
  else
    match lookupRouteDef routeDefinitions routeName with
    | none =>
      if routeName = "DI".data ∨ routeName = "MB".data then
        some ⟨currentDate, routeName, dayName currentDate,
          ⟨"special_duty".data, none, none, none, none, some routeName,
           some (getDutyName routeName), season, schoolStatus⟩⟩
      else none
    | some routeDef =>
      match (if isSchoolDay then routeDef.vad_mit_schule else routeDef.vad_ohne_schule) with
      | none => none
      | some vadTime =>
        if vadTime = [] ∨ vadTime = "00:00".data then none
        else some ⟨currentDate, routeName, dayName currentDate,
          ⟨"regular".data, some (pyNumOr0 routeDef.diaten), routeDef.diaten,
           some vadTime, routeDef.kfz_ort, none, none, season, schoolStatus⟩⟩

/-- The per-date body of the loop in `_generate_weekly_routes`: holiday
suppression first, then the Sunday guard, then the Saturday/weekday branches. -/
def routesForDay (weekStart : Date) (holidayDates : List Date)
    (schoolDays : List (Date × Bool)) (seasonalRoutes : List (Str × List Str))
    (routeDefinitions : List (Str × RouteDef)) (dayOffset : Nat) : List RouteEntry :=
  let currentDate := addDays weekStart dayOffset
  if currentDate ∈ holidayDates then []
  else
    let season := getSeasonForDate currentDate
    let isSchoolDay := lookupSchool schoolDays currentDate
    let schoolStatus := if isSchoolDay then "mit_schule".data else "ohne_schule".data
    if dayOffset = 6 then []
    else
      let seasonKey := getSeasonKey season schoolStatus
      let applicableRoutes := getSeasonalRoutes seasonalRoutes seasonKey
      if dayOffset = 5 then
        applicableRoutes.filterMap
          (saturdayRoute routeDefinitions isSchoolDay season schoolStatus currentDate)
      else if dayOffset < 5 then
        applicableRoutes.filterMap
          (weekdayRoute routeDefinitions isSchoolDay season schoolStatus currentDate)
      else []

/-- Embeds `ExcelParser._generate_weekly_routes`. -/
def generateWeeklyRoutes (weekStart : Date) (publicHolidays : List Holiday)
    (schoolDays : List (Date × Bool)) (seasonalRoutes : List (Str × List Str))
    (routeDefinitions : List (Str × RouteDef)) : List RouteEntry :=
  let holidayDates := holidayDatesIn weekStart publicHolidays
  ((List.range 7).map
    (routesForDay weekStart holidayDates schoolDays seasonalRoutes routeDefinitions)).flatten

/-- Embeds `_determine_season_and_school` (upload.py lines 353-371). -/
def determineSeasonAndSchool (weekStart : Date) (schoolDays : List (Date × Bool)) :
    Str × Str :=
  let season := if 6 ≤ weekStart.month ∧ weekStart.month ≤ 9
                then "summer".data else "winter".data
  let schoolStatus :=
    if (List.range 7).any
        (fun off => decide (lookupSchoolOpt schoolDays (addDays weekStart off) = some false))
    then "ohne_schule".data else "mit_schule".data
  (season, schoolStatus)

theorem saturdayRoute_eq_some {routeDefinitions : List (Str × RouteDef)} {isSchoolDay : Bool}
    {season schoolStatus : Str} {currentDate : Date} {routeName : Str} {r : RouteEntry}
    (h : saturdayRoute routeDefinitions isSchoolDay season schoolStatus currentDate routeName =
      some r) :
    r.date = currentDate ∧ r.route_name = routeName ∧ endsSA routeName = true ∧
      r.details.season = season := by
  have hSA : endsSA routeName = true := by
    cases hSA : endsSA routeName
    · unfold saturdayRoute at h; rw [hSA] at h; simp at h
    · rfl
  refine ⟨?_, ?_, hSA, ?_⟩ <;>
  · unfold saturdayRoute at h
    repeat' split at h
    all_goals first
      | exact Option.noConfusion h
      | (obtain rfl := Option.some.inj h; rfl)

theorem weekdayRoute_eq_some {routeDefinitions : List (Str × RouteDef)} {isSchoolDay : Bool}
    {season schoolStatus : Str} {currentDate : Date} {routeName : Str} {r : RouteEntry}
    (h : weekdayRoute routeDefinitions isSchoolDay season schoolStatus currentDate routeName =
      some r) :
    r.date = currentDate ∧ r.route_name = routeName ∧ endsSA routeName = false ∧
      r.details.season = season := by
  have hSA : endsSA routeName = false := by
    cases hSA : endsSA routeName
    · rfl
    · unfold weekdayRoute at h; rw [hSA] at h; simp at h
  refine ⟨?_, ?_, hSA, ?_⟩ <;>
  · unfold weekdayRoute at h
    repeat' split at h
    all_goals first
      | exact Option.noConfusion h
      | (obtain rfl := Option.some.inj h; rfl)

theorem mem_routesForDay {weekStart : Date} {holidayDates : List Date}
    {schoolDays : List (Date × Bool)} {seasonalRoutes : List (Str × List Str)}
    {routeDefinitions : List (Str × RouteDef)} {dayOffset : Nat} {r : RouteEntry}
    (h : r ∈ routesForDay weekStart holidayDates schoolDays seasonalRoutes
      routeDefinitions dayOffset) :
    r.date = addDays weekStart dayOffset ∧ addDays weekStart dayOffset ∉ holidayDates ∧
      dayOffset ≠ 6 ∧
      (dayOffset = 5 → endsSA r.route_name = true) ∧
      (dayOffset ≠ 5 → endsSA r.route_name = false) ∧
      r.details.season = getSeasonForDate (addDays weekStart dayOffset) := by
  unfold routesForDay at h
  by_cases hhol : addDays weekStart dayOffset ∈ holidayDates
  · rw [if_pos hhol] at h; simp at h
  · rw [if_neg hhol] at h
    by_cases h6 : dayOffset = 6
    · rw [if_pos h6] at h; simp at h
    · rw [if_neg h6] at h
      by_cases h5 : dayOffset = 5
      · rw [if_pos h5] at h
        rw [List.mem_filterMap] at h
        obtain ⟨name, _, hsome⟩ := h
        obtain ⟨hd, hn, hSA, hs⟩ := saturdayRoute_eq_some hsome
        exact ⟨hd, hhol, h6, fun _ => hn ▸ hSA, fun hne => absurd h5 hne, hs⟩
      · rw [if_neg h5] at h
        by_cases hlt : dayOffset < 5
        · rw [if_pos hlt] at h
          rw [List.mem_filterMap] at h
          obtain ⟨name, _, hsome⟩ := h
          obtain ⟨hd, hn, hSA, hs⟩ := weekdayRoute_eq_some hsome
          exact ⟨hd, hhol, h6, fun he => absurd he h5, fun _ => hn ▸ hSA, hs⟩
        · rw [if_neg hlt] at h; simp at h

theorem mem_generateWeeklyRoutes {weekStart : Date} {publicHolidays : List Holiday}
    {schoolDays : List (Date × Bool)} {seasonalRoutes : List (Str × List Str)}
    {routeDefinitions : List (Str × RouteDef)} {r : RouteEntry}
    (h : r ∈ generateWeeklyRoutes weekStart publicHolidays schoolDays seasonalRoutes
      routeDefinitions) :
    ∃ off, off < 7 ∧ r.date = addDays weekStart off ∧
      addDays weekStart off ∉ holidayDatesIn weekStart publicHolidays ∧ off ≠ 6 ∧
      (off = 5 → endsSA r.route_name = true) ∧
      (off ≠ 5 → endsSA r.route_name = false) ∧
      r.details.season = getSeasonForDate (addDays weekStart off) := by
  unfold generateWeeklyRoutes at h
  rw [List.mem_flatten] at h
  obtain ⟨l, hl, hr⟩ := h
  rw [List.mem_map] at hl
  obtain ⟨off, hoff, rfl⟩ := hl
  rw [List.mem_range] at hoff
  obtain ⟨h1, h2, h3, h4, h5, h6⟩ := mem_routesForDay hr
  exact ⟨off, hoff, h1, h2, h3, h4, h5, h6⟩

/-! ## Claims C4, C5, C7 -/

/-- Concrete route catalog used by the witnesses: a single weekday route
`411` that runs `06:30` when school is in session. -/
def rdefsW : List (Str × RouteDef) :=
  [("411".data, ⟨none, "411".data, some ("06:30".data), none, none, none, none, false⟩)]

/-- A Monday in July (the week used by the repository's own test script). -/
def wsW : Date := ⟨2025, 7, 7⟩

/-- One public holiday inside that week (Wednesday 2025-07-09). -/
def holsW : List Holiday := [⟨⟨2025, 7, 9⟩, "Feiertag".data⟩]

/-- Activation table marking route `411` active in summer with school. -/
def srW : List (Str × List Str) := [("summer_mit_schule".data, ["411".data])]

/-- Placeholder entry for `headD`. -/
def entryFallback : RouteEntry :=
  ⟨⟨0, 0, 0⟩, [], [], ⟨[], none, none, none, none, none, none, [], []⟩⟩

/-- The first route instance generated for the witness week. -/
def rW : RouteEntry := (generateWeeklyRoutes wsW holsW [] srW rdefsW).headD entryFallback

/-- C4: for every route catalog, seasonal activation table, holiday set and
school-status assignment, the weekly expansion emits no route instance dated
on the Sunday (7th day) of the week and none dated in the week's holiday set;
holiday suppression precedes any per-route consideration. -/
theorem C4_no_sunday_no_holiday_routes (weekStart : Date) (publicHolidays : List Holiday)
    (schoolDays : List (Date × Bool)) (seasonalRoutes : List (Str × List Str))
    (routeDefinitions : List (Str × RouteDef)) (hv : validDate weekStart) (r : RouteEntry)
    (hr : r ∈ generateWeeklyRoutes weekStart publicHolidays schoolDays seasonalRoutes
      routeDefinitions) :
    r.date ≠ addDays weekStart 6 ∧ r.date ∉ holidayDatesIn weekStart publicHolidays := by
  obtain ⟨off, h7, hdate, hhol, h6, -, -, -⟩ := mem_generateWeeklyRoutes hr
  refine ⟨?_, hdate ▸ hhol⟩
  rw [hdate]
  exact addDays_ne hv (by omega)

/-- Witness for C4 at a concrete week containing a holiday. -/
theorem C4_witness :
    validDate wsW ∧
      (rW.date ≠ addDays wsW 6 ∧ rW.date ∉ holidayDatesIn wsW holsW) :=
  ⟨by decide, C4_no_sunday_no_holiday_routes wsW holsW [] srW rdefsW (by decide) rW (by decide)⟩

/-- C5: Saturday-marker isolation — a route code whose identifier ends
(case-insensitively) in `SA` never yields an instance on a Monday-Friday date,
and a code not ending in `SA` never yields an instance on the Saturday. -/
theorem C5_saturday_marker_isolation (weekStart : Date) (publicHolidays : List Holiday)
    (schoolDays : List (Date × Bool)) (seasonalRoutes : List (Str × List Str))
    (routeDefinitions : List (Str × RouteDef)) (hv : validDate weekStart) (r : RouteEntry)
    (hr : r ∈ generateWeeklyRoutes weekStart publicHolidays schoolDays seasonalRoutes
      routeDefinitions) :
    (endsSA r.route_name = true → ∀ off, off < 5 → r.date ≠ addDays weekStart off) ∧
    (endsSA r.route_name = false → r.date ≠ addDays weekStart 5) := by
  obtain ⟨off0, h7, hdate, -, h6, h5t, h5f, -⟩ := mem_generateWeeklyRoutes hr
  constructor
  · intro hSA off hoff
    have h50 : off0 = 5 := by
      by_contra hne
      rw [h5f hne] at hSA
      exact Bool.noConfusion hSA
    rw [hdate, h50]
    exact (addDays_ne hv (by omega)).symm
  · intro hSA
    have h50 : off0 ≠ 5 := by
      intro he
      rw [h5t he] at hSA
      exact Bool.noConfusion hSA
    rw [hdate]
    exact addDays_ne hv (by omega)

/-- Witness for C5 at the concrete witness week. -/
theorem C5_witness :
    (endsSA rW.route_name = true → ∀ off, off < 5 → rW.date ≠ addDays wsW off) ∧
    (endsSA rW.route_name = false → rW.date ≠ addDays wsW 5) :=
  C5_saturday_marker_isolation wsW holsW [] srW rdefsW (by decide) rW (by decide)

/-- A Monday week start whose week crosses the September/October boundary. -/
def wsX : Date := ⟨2025, 9, 29⟩

/-- Activation table marking route `411` active in winter with school. -/
def srX : List (Str × List Str) := [("winter_mit_schule".data, ["411".data])]

/-- C7 counterexample: the week starting Monday 2025-09-29 has start month 9
(so the claim demands season `"summer"` on every route instance of that week),
yet the expansion emits an instance dated 2025-10-01 whose recorded season is
`"winter"`: the per-instance season is a function of the instance's own date,
not of the week's start month. -/
theorem C7_counterexample :
    (6 ≤ wsX.month ∧ wsX.month ≤ 9) ∧
    "winter".data ≠ "summer".data ∧
    ∃ r ∈ generateWeeklyRoutes wsX [] [] srX rdefsW, r.details.season = "winter".data := by
  refine ⟨by decide, by decide, ?_⟩
  decide

/-- C7 (amended): the season resolved for the week by
`_determine_season_and_school` is `"summer"` iff the week's start month lies
in {6,7,8,9}; the season recorded on each emitted route instance is
`"summer"` iff the instance's own date's month lies in {6,7,8,9} (a pure
function of that month), which coincides with the week-level season only when
the instance's date shares the start month's classification. -/
theorem C7_amended_season_per_date :
    (∀ (weekStart : Date) (schoolDays : List (Date × Bool)),
      (determineSeasonAndSchool weekStart schoolDays).1 =
        (if 6 ≤ weekStart.month ∧ weekStart.month ≤ 9
         then "summer".data else "winter".data)) ∧
    (∀ (weekStart : Date) (publicHolidays : List Holiday)
      (schoolDays : List (Date × Bool)) (seasonalRoutes : List (Str × List Str))
      (routeDefinitions : List (Str × RouteDef)) (r : RouteEntry),
      r ∈ generateWeeklyRoutes weekStart publicHolidays schoolDays seasonalRoutes
        routeDefinitions →
      r.details.season =
        (if 6 ≤ r.date.month ∧ r.date.month ≤ 9
         then "summer".data else "winter".data)) := by
  constructor
  · intro weekStart schoolDays
    rfl
  · intro weekStart publicHolidays schoolDays seasonalRoutes routeDefinitions r hr
    obtain ⟨off, -, hdate, -, -, -, -, hseason⟩ := mem_generateWeeklyRoutes hr
    rw [hseason, hdate]
    rfl

/-- Witness for C7's amended statement at the concrete witness week. -/
theorem C7_amended_witness :
    rW.details.season =
      (if 6 ≤ rW.date.month ∧ rW.date.month ≤ 9 then "summer".data else "winter".data) :=
  C7_amended_season_per_date.2 wsW holsW [] srW rdefsW rW (by decide)

/-! ## Fixed-assignment resolution (`parse_fixed_assignments`, excel_parser.py
lines 718-801) -/

/-- The driver fields consumed by `parse_fixed_assignments` (from
`self.data['drivers']`). -/
structure DriverRec where
  name : Str
  fixed_route_with_school : Option Str
  fixed_route_without_school : Option Str
deriving DecidableEq

/-- One element of `self.data['driver_availability']`. -/
structure AvailRec where
  driver_name : Str
  date : Date
  available : Bool
  notes : Str
deriving DecidableEq

/-- One element of `self.data['fixed_assignments']`. -/
structure AssignRec where
  driver_name : Str
  route_name : Str
  date : Date
  notes : Str
deriving DecidableEq

/-- The body of the per-driver-per-day loop of `parse_fixed_assignments`:
holiday skip, school-status code selection, the empty/`'None'` skip, the
`frei` branch, the `MB`/`DI` special-duty branch, and the suffixed-then-bare
primary-route lookup.  Returns the records appended by that iteration. -/
def processDriverDay (routeKeys : List (Str × Date)) (holidayDates : List Date)
    (schoolDays : List (Date × Bool)) (weekStart : Date) (driver : DriverRec)
    (dayOffset : Nat) : List AvailRec × List AssignRec :=
  let currentDate := addDays weekStart dayOffset
  if currentDate ∈ holidayDates then ([], [])
  else
    let isSchoolDay := lookupSchool schoolDays currentDate
    let schoolStatus := if isSchoolDay then "mit_schule".data else "ohne_schule".data
    let fixedRouteRaw := if isSchoolDay then driver.fixed_route_with_school
                         else driver.fixed_route_without_school
    let routeSuffix := if isSchoolDay then "mS".data else "oS".data
    match fixedRouteRaw with
    | none => ([], [])
    | some raw =>
      if raw = "None".data ∨ pyStrip raw = [] then ([], [])
      else
        let fixedRoute := pyStrip raw
        if pyLower fixedRoute = "frei".data then
          ([⟨driver.name, currentDate, false,
             "Fixdienst: frei (".data ++ schoolStatus ++ ")".data⟩], [])
        else if fixedRoute = "MB".data ∨ fixedRoute = "DI".data then
          if (fixedRoute, currentDate) ∈ routeKeys then
            ([], [⟨driver.name, fixedRoute, currentDate,
                   "Special duty: ".data ++ fixedRoute⟩])
          else ([], [])
        else
          let routeParts := (pySplitOnChar '+' fixedRoute).map pyStrip
          let primaryRouteBase := routeParts.headD []
          let primaryWithSuffix := primaryRouteBase ++ routeSuffix
          if (primaryWithSuffix, currentDate) ∈ routeKeys then
            ([], [⟨driver.name, primaryWithSuffix, currentDate,
                   "Fixed assignment (".data ++ schoolStatus ++ ")".data⟩])
          else if (primaryRouteBase, currentDate) ∈ routeKeys then
            ([], [⟨driver.name, primaryRouteBase, currentDate,
                   "Fixed assignment (".data ++ schoolStatus ++ ")".data⟩])
          else ([], [])

/-- The `driver_availability` list built by `parse_fixed_assignments`
(driver-major, day-minor append order). -/
def parseFixedAvailability (weekStart : Date) (drivers : List DriverRec)
    (routeKeys : List (Str × Date)) (publicHolidays : List Holiday)
    (schoolDays : List (Date × Bool)) : List AvailRec :=
  let holidayDates := holidayDatesIn weekStart publicHolidays
  (drivers.map (fun driver =>
    ((List.range 7).map (fun off =>
      (processDriverDay routeKeys holidayDates schoolDays weekStart driver off).1)).flatten)).flatten

/-- The `fixed_assignments` list built by `parse_fixed_assignments`. -/
def parseFixedAssignmentRecords (weekStart : Date) (drivers : List DriverRec)
    (routeKeys : List (Str × Date)) (publicHolidays : List Holiday)
    (schoolDays : List (Date × Bool)) : List AssignRec :=
  let holidayDates := holidayDatesIn weekStart publicHolidays
  (drivers.map (fun driver =>
    ((List.range 7).map (fun off =>
      (processDriverDay routeKeys holidayDates schoolDays weekStart driver off).2)).flatten)).flatten

theorem processDriverDay_avail_mem {routeKeys : List (Str × Date)}
    {holidayDates : List Date} {schoolDays : List (Date × Bool)} {weekStart : Date}
    {driver : DriverRec} {dayOffset : Nat} {rec : AvailRec}
    (h : rec ∈ (processDriverDay routeKeys holidayDates schoolDays weekStart driver
      dayOffset).1) :
    rec.date = addDays weekStart dayOffset ∧
      addDays weekStart dayOffset ∉ holidayDates ∧ rec.available = false := by
  simp only [processDriverDay] at h
  by_cases hhol : addDays weekStart dayOffset ∈ holidayDates
  · rw [if_pos hhol] at h
    simp at h
  · rw [if_neg hhol] at h
    repeat' split at h
    all_goals simp at h
    all_goals subst h
    all_goals exact ⟨rfl, hhol, rfl⟩

theorem mem_parseFixedAvailability {weekStart : Date} {drivers : List DriverRec}
    {routeKeys : List (Str × Date)} {publicHolidays : List Holiday}
    {schoolDays : List (Date × Bool)} {rec : AvailRec}
    (h : rec ∈ parseFixedAvailability weekStart drivers routeKeys publicHolidays
      schoolDays) :
    ∃ off, off < 7 ∧ rec.date = addDays weekStart off ∧
      rec.date ∉ holidayDatesIn weekStart publicHolidays ∧ rec.available = false := by
  unfold parseFixedAvailability at h
  rw [List.mem_flatten] at h
  obtain ⟨l, hl, hr⟩ := h
  rw [List.mem_map] at hl
  obtain ⟨driver, hd, rfl⟩ := hl
  rw [List.mem_flatten] at hr
  obtain ⟨l2, hl2, hr2⟩ := hr
  rw [List.mem_map] at hl2
  obtain ⟨off, hoff, rfl⟩ := hl2
  rw [List.mem_range] at hoff
  obtain ⟨h1, h2, h3⟩ := processDriverDay_avail_mem hr2
  exact ⟨off, hoff, h1, h1 ▸ h2, h3⟩

/-! ## Claims C1, C6 -/

/-- Driver fixed to `frei` in school weeks, used by the C1 scenario. -/
def freiDriverW : DriverRec := ⟨"A".data, some ("frei".data), none⟩

/-- C1 counterexample: in the claim's own scenario (one driver with
school-session fixed duty `frei`, all seven days school-in-session, no
holiday), `parse_fixed_assignments` iterates `range(7)` with no weekday
restriction: it emits 7 unavailable records — in particular one dated on the
week's Saturday (`week_start + 5`) — not 5, refuting "a fixed-duty-derived
record is produced only when the date is a Monday-through-Friday date". -/
theorem C1_counterexample :
    (parseFixedAvailability wsW [freiDriverW] [] [] []).length = 7 ∧
    ∃ rec ∈ parseFixedAvailability wsW [freiDriverW] [] [] [],
      rec.date = addDays wsW 5 ∧ rec.available = false := by
  constructor
  · rfl
  · decide

/-- C1 (amended): fixed-duty processing covers every non-holiday date of the
full 7-day window, Saturday and Sunday included: every `frei` unavailability
record produced by `parse_fixed_assignments` is dated inside the window and
outside the week's holiday set, and for a driver whose school-session code is
`frei` in a week where all 7 days resolve to school-in-session with no
holiday, exactly 7 unavailable records are emitted — one per calendar day of
the week, Saturday and Sunday included. -/
theorem C1_amended_weekend_included :
    (∀ (weekStart : Date) (drivers : List DriverRec) (routeKeys : List (Str × Date))
      (publicHolidays : List Holiday) (schoolDays : List (Date × Bool)) (rec : AvailRec),
      rec ∈ parseFixedAvailability weekStart drivers routeKeys publicHolidays schoolDays →
      ∃ off, off < 7 ∧ rec.date = addDays weekStart off ∧
        rec.date ∉ holidayDatesIn weekStart publicHolidays) ∧
    (∀ (weekStart : Date) (name : Str) (routeKeys : List (Str × Date)),
      parseFixedAvailability weekStart [⟨name, some ("frei".data), none⟩] routeKeys [] [] =
        (List.range 7).map (fun off =>
          ⟨name, addDays weekStart off, false, "Fixdienst: frei (mit_schule)".data⟩)) := by
  constructor
  · intro weekStart drivers routeKeys publicHolidays schoolDays rec h
    obtain ⟨off, hoff, h1, h2, -⟩ := mem_parseFixedAvailability h
    exact ⟨off, hoff, h1, h2⟩
  · intro weekStart name routeKeys
    rfl

/-- Fallback availability record for `headD`. -/
def availFallback : AvailRec := ⟨[], ⟨0, 0, 0⟩, true, []⟩

/-- The first `frei` record of the C1 scenario (it is dated on the Monday). -/
def recW : AvailRec := (parseFixedAvailability wsW [freiDriverW] [] [] []).headD availFallback

/-- Witness for C1's amended statement. -/
theorem C1_amended_witness :
    ∃ off, off < 7 ∧ recW.date = addDays wsW off ∧
      recW.date ∉ holidayDatesIn wsW [] :=
  C1_amended_weekend_included.1 wsW [freiDriverW] [] [] [] recW (by decide)

/-- C6: for a non-empty fixed-duty code that is neither `frei` nor a
special-duty code, the resolver splits on `+`, keeps only the first part as
primary, tries the school-status-suffixed key first, falls back to the bare
primary, emits exactly one assignment record on a hit and nothing (silently)
when both lookups miss; parts after the first are never resolved. -/
theorem C6_fixed_duty_resolution_order (routeKeys : List (Str × Date))
    (holidayDates : List Date) (schoolDays : List (Date × Bool)) (weekStart : Date)
    (driver : DriverRec) (dayOffset : Nat) (raw : Str)
    (hhol : addDays weekStart dayOffset ∉ holidayDates)
    (hraw : (if lookupSchool schoolDays (addDays weekStart dayOffset)
             then driver.fixed_route_with_school
             else driver.fixed_route_without_school) = some raw)
    (hskip : ¬(raw = "None".data ∨ pyStrip raw = []))
    (hfrei : ¬pyLower (pyStrip raw) = "frei".data)
    (hspecial : ¬(pyStrip raw = "MB".data ∨ pyStrip raw = "DI".data)) :
    (((((pySplitOnChar '+' (pyStrip raw)).map pyStrip).headD []) ++
        (if lookupSchool schoolDays (addDays weekStart dayOffset)
         then "mS".data else "oS".data), addDays weekStart dayOffset) ∈ routeKeys →
      processDriverDay routeKeys holidayDates schoolDays weekStart driver dayOffset =
        ([], [⟨driver.name,
          ((((pySplitOnChar '+' (pyStrip raw)).map pyStrip).headD []) ++
            (if lookupSchool schoolDays (addDays weekStart dayOffset)
             then "mS".data else "oS".data)), addDays weekStart dayOffset,
          "Fixed assignment (".data ++
            (if lookupSchool schoolDays (addDays weekStart dayOffset)
             then "mit_schule".data else "ohne_schule".data) ++ ")".data⟩])) ∧
    (¬(((((pySplitOnChar '+' (pyStrip raw)).map pyStrip).headD []) ++
        (if lookupSchool schoolDays (addDays weekStart dayOffset)
         then "mS".data else "oS".data), addDays weekStart dayOffset) ∈ routeKeys) →
      ((((pySplitOnChar '+' (pyStrip raw)).map pyStrip).headD []),
        addDays weekStart dayOffset) ∈ routeKeys →
      processDriverDay routeKeys holidayDates schoolDays weekStart driver dayOffset =
        ([], [⟨driver.name,
          (((pySplitOnChar '+' (pyStrip raw)).map pyStrip).headD []),
          addDays weekStart dayOffset,
          "Fixed assignment (".data ++
            (if lookupSchool schoolDays (addDays weekStart dayOffset)
             then "mit_schule".data else "ohne_schule".data) ++ ")".data⟩])) ∧
    (¬(((((pySplitOnChar '+' (pyStrip raw)).map pyStrip).headD []) ++
        (if lookupSchool schoolDays (addDays weekStart dayOffset)
         then "mS".data else "oS".data), addDays weekStart dayOffset) ∈ routeKeys) →
      ¬(((((pySplitOnChar '+' (pyStrip raw)).map pyStrip).headD []),
        addDays weekStart dayOffset) ∈ routeKeys) →
      processDriverDay routeKeys holidayDates schoolDays weekStart driver dayOffset =
        ([], [])) := by
  simp only [processDriverDay]
  rw [if_neg hhol, hraw]
  dsimp only
  refine ⟨?_, ?_, ?_⟩
  · intro hmem
    rw [if_neg hskip, if_neg hfrei, if_neg hspecial, if_pos hmem]
  · intro hmiss hmem
    rw [if_neg hskip, if_neg hfrei, if_neg hspecial, if_neg hmiss, if_pos hmem]
  · intro hmiss1 hmiss2
    rw [if_neg hskip, if_neg hfrei, if_neg hspecial, if_neg hmiss1, if_neg hmiss2]

/-- Driver with the combined fixed-duty code `411 + 412` (spec §8 scenario). -/
def driverW : DriverRec := ⟨"Mustermann".data, some ("411 + 412".data), none⟩

/-- Route-instance keys for the C6 scenario: `411mS` exists on the Monday,
`412mS` does not. -/
def routeKeysW : List (Str × Date) := [("411mS".data, wsW)]

/-- Witness for C6: the spec's own scenario — code `411 + 412` with suffix
`mS`, an instance for `411mS` but none for `412mS` — yields exactly one
assignment record, referencing `411mS`. -/
theorem C6_witness :
    ("411mS".data, wsW) ∈ routeKeysW ∧
    processDriverDay routeKeysW [] [] wsW driverW 0 =
      ([], [⟨"Mustermann".data, "411mS".data, wsW,
             "Fixed assignment (mit_schule)".data⟩]) := by
  have h := (C6_fixed_duty_resolution_order routeKeysW [] [] wsW driverW 0
    ("411 + 412".data) (by decide) (by decide) (by decide) (by decide) (by decide)).1
    (by decide)
  exact ⟨by decide, h.trans (by decide)⟩

/-! ## The `driver_availability` table and `create_availability`
(database_service.py lines 297-348), and the availability passes of
`upload_weekly_plan` (upload.py lines 192-309). -/

/-- One row of the `driver_availability` table. -/
structure DbAvail where
  driver_id : Nat
  date : Date
  available : Bool
  shift_preference : Option Str
  notes : Option Str
deriving DecidableEq

/-- The SQL `CASE` combining an existing `notes` column with a new value:
keep the old on `NULL` input, take the new when the old is `NULL`, else
concatenate with `'; '`. -/
def noteCombine (old newNote : Option Str) : Option Str :=
  match newNote with
  | none => old
  | some n =>
    match old with
    | none => some n
    | some o => some (o ++ "; ".data ++ n)

/-- The `UPDATE` arm of `create_availability`: overwrite `available`,
`COALESCE` the shift preference, combine the notes. -/
def updateAvail (r : DbAvail) (available : Bool) (shift notes : Option Str) : DbAvail :=
  { r with
    available := available,
    shift_preference := match shift with | some s => some s | none => r.shift_preference,
    notes := noteCombine r.notes notes }

/-- Apply the `UPDATE ... WHERE id = <first matching row>` to the table. -/
def updateFirstAvail : List DbAvail → Nat → Date → Bool → Option Str → Option Str →
    List DbAvail
  | [], _, _, _, _, _ => []
  | r :: rest, did, d, a, s, n =>
    if r.driver_id = did ∧ r.date = d then updateAvail r a s n :: rest
    else r :: updateFirstAvail rest did d a s n

/-- Embeds `DatabaseService.create_availability`: update the existing
`(driver_id, date)` row in place when one exists, else insert a new row. -/
def createAvailability (db : List DbAvail) (did : Nat) (d : Date) (available : Bool)
    (shift notes : Option Str) : List DbAvail :=
  if ∃ r ∈ db, r.driver_id = did ∧ r.date = d then
    updateFirstAvail db did d available shift notes
  else db ++ [⟨did, d, available, shift, notes⟩]

/-- The `(driver_id, date)` keys of the table rows. -/
def keysOf (db : List DbAvail) : List (Nat × Date) :=
  db.map (fun r => (r.driver_id, r.date))

theorem mem_keysOf {db : List DbAvail} {k : Nat × Date} :
    k ∈ keysOf db ↔ ∃ r ∈ db, (r.driver_id, r.date) = k := by
  simp [keysOf, List.mem_map]

theorem keysOf_updateFirstAvail (db : List DbAvail) (did : Nat) (d : Date)
    (a : Bool) (s n : Option Str) :
    keysOf (updateFirstAvail db did d a s n) = keysOf db := by
  induction db with
  | nil => rfl
  | cons r rest ih =>
    unfold updateFirstAvail
    split_ifs with h
    · simp [keysOf, updateAvail]
    · simpa [keysOf] using ih

theorem length_updateFirstAvail (db : List DbAvail) (did : Nat) (d : Date)
    (a : Bool) (s n : Option Str) :
    (updateFirstAvail db did d a s n).length = db.length := by
  induction db with
  | nil => rfl
  | cons r rest ih =>
    unfold updateFirstAvail
    split_ifs with h
    · rfl
    · simpa using ih

theorem mem_keysOf_createAvailability {db : List DbAvail} {did : Nat} {d : Date}
    {a : Bool} {s n : Option Str} {k : Nat × Date} :
    k ∈ keysOf (createAvailability db did d a s n) ↔ k ∈ keysOf db ∨ k = (did, d) := by
  unfold createAvailability
  split_ifs with hex
  · rw [keysOf_updateFirstAvail]
    constructor
    · exact Or.inl
    · rintro (h | rfl)
      · exact h
      · obtain ⟨r, hr, h1, h2⟩ := hex
        exact mem_keysOf.mpr ⟨r, hr, by rw [h1, h2]⟩
  · simp [keysOf, List.mem_map, List.mem_append]

theorem self_mem_keysOf_createAvailability {db : List DbAvail} {did : Nat} {d : Date}
    {a : Bool} {s n : Option Str} :
    (did, d) ∈ keysOf (createAvailability db did d a s n) :=
  mem_keysOf_createAvailability.mpr (Or.inr rfl)

theorem keys_mono_createAvailability {db : List DbAvail} {did : Nat} {d : Date}
    {a : Bool} {s n : Option Str} {k : Nat × Date} (h : k ∈ keysOf db) :
    k ∈ keysOf (createAvailability db did d a s n) :=
  mem_keysOf_createAvailability.mpr (Or.inl h)

theorem nodup_keysOf_createAvailability {db : List DbAvail} {did : Nat} {d : Date}
    {a : Bool} {s n : Option Str} (h : (keysOf db).Nodup) :
    (keysOf (createAvailability db did d a s n)).Nodup := by
  unfold createAvailability
  split_ifs with hex
  · rwa [keysOf_updateFirstAvail]
  · have hnot : (did, d) ∉ keysOf db := by
      intro hmem
      obtain ⟨r, hr, heq⟩ := mem_keysOf.mp hmem
      exact hex ⟨r, hr, congrArg Prod.fst heq, congrArg Prod.snd heq⟩
    have : keysOf (db ++ [⟨did, d, a, s, n⟩]) = keysOf db ++ [(did, d)] := by
      simp [keysOf]
    rw [this, List.nodup_append]
    exact ⟨h, List.nodup_singleton _, by simpa using hnot⟩

theorem find?_updateFirstAvail {db : List DbAvail} {did : Nat} {d : Date}
    {a : Bool} {s n : Option Str} {r₀ : DbAvail}
    (h : db.find? (fun r => decide (r.driver_id = did ∧ r.date = d)) = some r₀) :
    (updateFirstAvail db did d a s n).find?
        (fun r => decide (r.driver_id = did ∧ r.date = d)) =
      some (updateAvail r₀ a s n) := by
  induction db with
  | nil => simp at h
  | cons r rest ih =>
    by_cases hr : r.driver_id = did ∧ r.date = d
    · rw [List.find?_cons_of_pos _ (by simpa using hr)] at h
      obtain rfl := Option.some.inj h
      unfold updateFirstAvail
      rw [if_pos hr]
      exact List.find?_cons_of_pos _ (by simpa [updateAvail] using hr)
    · rw [List.find?_cons_of_neg _ (by simpa using hr)] at h
      unfold updateFirstAvail
      rw [if_neg hr]
      rw [List.find?_cons_of_neg _ (by simpa using hr)]
      exact ih h

/-! ## The availability passes of `upload_weekly_plan` -/

/-- One element of the `unavailable_drivers` request parameter (with its dates
already ISO-parsed; entries with unparseable dates are dropped before this
point). -/
structure ManualUnavail where
  driver_name : Str
  dates : List Date
  reason : Str
deriving DecidableEq

/-- Dictionary access into `driver_id_map`. -/
def lookupDriverId (driverIdMap : List (Str × Nat)) (name : Str) : Option Nat :=
  (driverIdMap.find? (fun p => decide (p.1 = name))).map (fun p => p.2)

/-- Step 3 of `upload_weekly_plan` (upload.py lines 192-204): for every
in-week holiday, mark every driver unavailable for that date.  Note that this
step does not record the pairs it wrote anywhere. -/
def holidayStep (weekStart : Date) (driverIdMap : List (Str × Nat))
    (parsedHolidays : List Holiday) (db : List DbAvail) : List DbAvail :=
  parsedHolidays.foldl (fun db h =>
    if dateLe weekStart h.date && dateLt h.date (addDays weekStart 7) then
      driverIdMap.foldl (fun db p =>
        createAvailability db p.2 h.date false none
          (some ("Feiertag: ".data ++ h.name))) db
    else db) db

/-- The parsed-`frei` pass (upload.py lines 243-259): write each parsed
availability record and add its pair to `unavailable_set`. -/
def freiStep (driverIdMap : List (Str × Nat)) (parsedAvail : List AvailRec)
    (st : List DbAvail × List (Nat × Date)) : List DbAvail × List (Nat × Date) :=
  parsedAvail.foldl (fun st a =>
    match lookupDriverId driverIdMap a.driver_name with
    | none => st
    | some did =>
      (createAvailability st.1 did a.date a.available none (some a.notes),
       st.2 ++ [(did, a.date)])) st

/-- The manual-unavailability pass (upload.py lines 262-287). -/
def manualStep (driverIdMap : List (Str × Nat)) (manual : List ManualUnavail)
    (st : List DbAvail × List (Nat × Date)) : List DbAvail × List (Nat × Date) :=
  manual.foldl (fun st m =>
    match lookupDriverId driverIdMap m.driver_name with
    | none => st
    | some did =>
      m.dates.foldl (fun st d =>
        (createAvailability st.1 did d false none (some m.reason),
         st.2 ++ [(did, d)])) st) st

/-- The inner loop of the default fill (upload.py lines 292-307): for one
driver, write a default `Available` record for each of the 7 dates whose pair
is not in `unavailable_set`. -/
def fillDriver (weekStart : Date) (unavailSet : List (Nat × Date)) (did : Nat)
    (db : List DbAvail) : List DbAvail :=
  (List.range 7).foldl (fun db off =>
    if (did, addDays weekStart off) ∈ unavailSet then db
    else createAvailability db did (addDays weekStart off) true none
      (some ("Available".data))) db

/-- The default-available fill over all drivers. -/
def defaultFillStep (weekStart : Date) (driverIdMap : List (Str × Nat))
    (unavailSet : List (Nat × Date)) (db : List DbAvail) : List DbAvail :=
  driverIdMap.foldl (fun db p => fillDriver weekStart unavailSet p.2 db) db

/-- The whole availability portion of `upload_weekly_plan`, starting from the
table cleared by `clear_all_week_data`: holidays, parsed `frei` records,
manual unavailability, then the default fill. -/
def uploadAvailability (weekStart : Date) (driverIdMap : List (Str × Nat))
    (parsedHolidays : List Holiday) (parsedAvail : List AvailRec)
    (manual : List ManualUnavail) : List DbAvail :=
  let db1 := holidayStep weekStart driverIdMap parsedHolidays []
  let st2 := freiStep driverIdMap parsedAvail (db1, [])
  let st3 := manualStep driverIdMap manual st2
  defaultFillStep weekStart driverIdMap st3.2 st3.1

/-- Invariant propagation through a fold. -/
theorem foldl_inv {σ α : Type} (f : σ → α → σ) (P : σ → Prop)
    (hf : ∀ st a, P st → P (f st a)) :
    ∀ (l : List α) (st : σ), P st → P (l.foldl f st)
  | [], _, h => h
  | a :: l, st, h => foldl_inv f P hf l (f st a) (hf st a h)

/-- If some list element's step forces a property that is preserved by every
later step, the fold result has it. -/
theorem foldl_forced {σ α : Type} (f : σ → α → σ) (P : σ → Prop)
    (hmono : ∀ st a, P st → P (f st a)) (a0 : α) (hforce : ∀ st, P (f st a0)) :
    ∀ (l : List α) (st : σ), a0 ∈ l → P (l.foldl f st)
  | a :: l, st, hmem => by
    rcases List.mem_cons.mp hmem with rfl | hmem'
    · exact foldl_inv f P hmono l (f st a0) (hforce st)
    · exact foldl_forced f P hmono a0 hforce l (f st a) hmem'

/-- The combined invariant carried through the write passes: the table keys
are duplicate-free and every pair recorded in `unavailable_set` already has a
row. -/
def PipeInv (st : List DbAvail × List (Nat × Date)) : Prop :=
  (keysOf st.1).Nodup ∧ ∀ k ∈ st.2, k ∈ keysOf st.1

theorem pipeInv_create {st : List DbAvail × List (Nat × Date)} {did : Nat} {d : Date}
    {a : Bool} {s n : Option Str} (h : PipeInv st) :
    PipeInv (createAvailability st.1 did d a s n, st.2 ++ [(did, d)]) := by
  obtain ⟨h1, h2⟩ := h
  refine ⟨nodup_keysOf_createAvailability h1, ?_⟩
  intro k hk
  rcases List.mem_append.mp hk with hk | hk
  · exact keys_mono_createAvailability (h2 k hk)
  · rw [List.mem_singleton] at hk
    subst hk
    exact self_mem_keysOf_createAvailability

theorem holidayStep_inv {weekStart : Date} {driverIdMap : List (Str × Nat)}
    {parsedHolidays : List Holiday} {db : List DbAvail} (h : (keysOf db).Nodup) :
    (keysOf (holidayStep weekStart driverIdMap parsedHolidays db)).Nodup := by
  refine foldl_inv _ (fun db => (keysOf db).Nodup) ?_ parsedHolidays db h
  intro db hol hdb
  split_ifs
  · exact foldl_inv _ (fun db => (keysOf db).Nodup)
      (fun db p hdb => nodup_keysOf_createAvailability hdb) driverIdMap db hdb
  · exact hdb

theorem freiStep_inv {driverIdMap : List (Str × Nat)} {parsedAvail : List AvailRec}
    {st : List DbAvail × List (Nat × Date)} (h : PipeInv st) :
    PipeInv (freiStep driverIdMap parsedAvail st) := by
  refine foldl_inv _ PipeInv ?_ parsedAvail st h
  intro st a hst
  cases hl : lookupDriverId driverIdMap a.driver_name with
  | none => simpa [hl] using hst
  | some did => simpa [hl] using pipeInv_create hst

theorem manualStep_inv {driverIdMap : List (Str × Nat)} {manual : List ManualUnavail}
    {st : List DbAvail × List (Nat × Date)} (h : PipeInv st) :
    PipeInv (manualStep driverIdMap manual st) := by
  refine foldl_inv _ PipeInv ?_ manual st h
  intro st m hst
  cases hl : lookupDriverId driverIdMap m.driver_name with
  | none => simpa [hl] using hst
  | some did =>
    simp only [hl]
    exact foldl_inv _ PipeInv (fun st d hst => pipeInv_create hst) m.dates st hst

theorem fillDriver_nodup {weekStart : Date} {unavailSet : List (Nat × Date)}
    {did : Nat} {db : List DbAvail} (h : (keysOf db).Nodup) :
    (keysOf (fillDriver weekStart unavailSet did db)).Nodup := by
  refine foldl_inv _ (fun db => (keysOf db).Nodup) ?_ (List.range 7) db h
  intro db off hdb
  split_ifs
  · exact hdb
  · exact nodup_keysOf_createAvailability hdb

theorem fillDriver_mono {weekStart : Date} {unavailSet : List (Nat × Date)}
    {did : Nat} {db : List DbAvail} {k : Nat × Date} (h : k ∈ keysOf db) :
    k ∈ keysOf (fillDriver weekStart unavailSet did db) := by
  refine foldl_inv _ (fun db => k ∈ keysOf db) ?_ (List.range 7) db h
  intro db off hdb
  split_ifs
  · exact hdb
  · exact keys_mono_createAvailability hdb

theorem fillDriver_covers {weekStart : Date} {unavailSet : List (Nat × Date)}
    {did : Nat} {off : Nat} (hoff : off < 7)
    (hnot : (did, addDays weekStart off) ∉ unavailSet) (db : List DbAvail) :
    (did, addDays weekStart off) ∈ keysOf (fillDriver weekStart unavailSet did db) := by
  refine foldl_forced _ (fun db => (did, addDays weekStart off) ∈ keysOf db) ?_ off ?_
    (List.range 7) db (List.mem_range.mpr hoff)
  · intro db off' hdb
    split_ifs
    · exact hdb
    · exact keys_mono_createAvailability hdb
  · intro db
    rw [if_neg hnot]
    exact self_mem_keysOf_createAvailability

theorem defaultFillStep_nodup {weekStart : Date} {driverIdMap : List (Str × Nat)}
    {unavailSet : List (Nat × Date)} {db : List DbAvail} (h : (keysOf db).Nodup) :
    (keysOf (defaultFillStep weekStart driverIdMap unavailSet db)).Nodup := by
  refine foldl_inv _ (fun db => (keysOf db).Nodup) ?_ driverIdMap db h
  intro db p hdb
  exact fillDriver_nodup hdb

theorem defaultFillStep_mono {weekStart : Date} {driverIdMap : List (Str × Nat)}
    {unavailSet : List (Nat × Date)} {db : List DbAvail} {k : Nat × Date}
    (h : k ∈ keysOf db) :
    k ∈ keysOf (defaultFillStep weekStart driverIdMap unavailSet db) := by
  refine foldl_inv _ (fun db => k ∈ keysOf db) ?_ driverIdMap db h
  intro db p hdb
  exact fillDriver_mono hdb

theorem defaultFillStep_covers {weekStart : Date} {driverIdMap : List (Str × Nat)}
    {unavailSet : List (Nat × Date)} {db : List DbAvail} {name : Str} {did : Nat}
    {off : Nat} (hmem : (name, did) ∈ driverIdMap) (hoff : off < 7)
    (hnot : (did, addDays weekStart off) ∉ unavailSet) :
    (did, addDays weekStart off) ∈
      keysOf (defaultFillStep weekStart driverIdMap unavailSet db) := by
  refine foldl_forced _ (fun db => (did, addDays weekStart off) ∈ keysOf db) ?_
    (name, did) ?_ driverIdMap db hmem
  · intro db p hdb
    exact fillDriver_mono hdb
  · intro db
    exact fillDriver_covers hoff hnot db

/-- The number of table rows keyed by a given `(driver_id, date)` pair. -/
def countKey (db : List DbAvail) (k : Nat × Date) : Nat :=
  (keysOf db).countP (fun x => decide (x = k))

theorem countP_eq_one_of_nodup_mem {α : Type} [DecidableEq α] {l : List α} {a : α}
    (hn : l.Nodup) (hm : a ∈ l) : l.countP (fun x => decide (x = a)) = 1 := by
  induction l with
  | nil => cases hm
  | cons b l ih =>
    rw [List.countP_cons]
    rcases List.mem_cons.mp hm with heq | hm'
    · subst heq
      have hb : a ∉ l := (List.nodup_cons.mp hn).1
      have hz : l.countP (fun x => decide (x = a)) = 0 := by
        rw [List.countP_eq_zero]
        intro x hx
        simp only [decide_eq_true_eq]
        rintro rfl
        exact hb hx
      simp [hz]
    · have hne : b ≠ a := by
        rintro rfl
        exact (List.nodup_cons.mp hn).1 hm'
      rw [ih (List.nodup_cons.mp hn).2 hm']
      simp [hne]

/-! ## Claims C2, C3 -/

/-- Driver-id map with a single driver, used by the concrete C2/C3 runs. -/
def mapC3 : List (Str × Nat) := [("Huber".data, 1)]

/-- C2 (code bug evidence): running the availability passes for one driver
and one in-week holiday (2025-07-09) with no `frei` or manual records leaves
the holiday row with `available = true` and note
`"Feiertag: Feiertag; Available"`: the holiday pairs are never added to
`unavailable_set` (the set does not even exist yet in step 3), so the default
fill visits them and `create_availability` overwrites `available` to true —
contradicting the claim (and the code's own comment "Skip if already marked
unavailable (holiday, frei, or manual)"). -/
theorem C2_holiday_overwritten_bug :
    ∃ r ∈ uploadAvailability wsW mapC3 holsW [] [],
      r.driver_id = 1 ∧ r.date = ⟨2025, 7, 9⟩ ∧ r.available = true ∧
      r.notes = some ("Feiertag: Feiertag; Available".data) := by
  decide

/-- C3: (i) after the availability passes complete, every roster driver has
exactly one table row per date of the 7-day week; (ii) writing a pair that
already has a row updates it in place (row count unchanged, the matching row
becomes the field-updated old row); (iii) the updated row's note is
`noteCombine` of old and new, which concatenates with the `'; '` separator
when both are present. -/
theorem C3_availability_unique_coverage :
    (∀ (weekStart : Date) (driverIdMap : List (Str × Nat))
      (parsedHolidays : List Holiday) (parsedAvail : List AvailRec)
      (manual : List ManualUnavail) (name : Str) (did off : Nat),
      (name, did) ∈ driverIdMap → off < 7 →
      countKey (uploadAvailability weekStart driverIdMap parsedHolidays parsedAvail
        manual) (did, addDays weekStart off) = 1) ∧
    (∀ (db : List DbAvail) (did : Nat) (d : Date) (available : Bool)
      (shift notes : Option Str) (r₀ : DbAvail),
      db.find? (fun r => decide (r.driver_id = did ∧ r.date = d)) = some r₀ →
      (createAvailability db did d available shift notes).length = db.length ∧
      (createAvailability db did d available shift notes).find?
          (fun r => decide (r.driver_id = did ∧ r.date = d)) =
        some (updateAvail r₀ available shift notes)) ∧
    (∀ (r₀ : DbAvail) (available : Bool) (shift notes : Option Str),
      (updateAvail r₀ available shift notes).notes = noteCombine r₀.notes notes ∧
      ∀ o n, noteCombine (some o) (some n) = some (o ++ "; ".data ++ n)) := by
  refine ⟨?_, ?_, ?_⟩
  · intro weekStart driverIdMap parsedHolidays parsedAvail manual name did off hmem hoff
    simp only [uploadAvailability]
    have hn1 : (keysOf (holidayStep weekStart driverIdMap parsedHolidays [])).Nodup :=
      holidayStep_inv (by simp [keysOf])
    have hinv : PipeInv (manualStep driverIdMap manual
        (freiStep driverIdMap parsedAvail
          (holidayStep weekStart driverIdMap parsedHolidays [], []))) :=
      manualStep_inv (freiStep_inv ⟨hn1, by simp⟩)
    have hnodup : (keysOf (defaultFillStep weekStart driverIdMap
        (manualStep driverIdMap manual (freiStep driverIdMap parsedAvail
          (holidayStep weekStart driverIdMap parsedHolidays [], []))).2
        (manualStep driverIdMap manual (freiStep driverIdMap parsedAvail
          (holidayStep weekStart driverIdMap parsedHolidays [], []))).1)).Nodup :=
      defaultFillStep_nodup hinv.1
    by_cases hset : (did, addDays weekStart off) ∈ (manualStep driverIdMap manual
        (freiStep driverIdMap parsedAvail
          (holidayStep weekStart driverIdMap parsedHolidays [], []))).2
    · exact countP_eq_one_of_nodup_mem hnodup (defaultFillStep_mono (hinv.2 _ hset))
    · exact countP_eq_one_of_nodup_mem hnodup (defaultFillStep_covers hmem hoff hset)
  · intro db did d available shift notes r₀ hfind
    have hex : ∃ r ∈ db, r.driver_id = did ∧ r.date = d := by
      have hmem := List.mem_of_find?_eq_some hfind
      have hpred := List.find?_some hfind
      exact ⟨r₀, hmem, by simpa using hpred⟩
    unfold createAvailability
    rw [if_pos hex]
    exact ⟨length_updateFirstAvail db did d available shift notes,
      find?_updateFirstAvail hfind⟩
  · intro r₀ available shift notes
    exact ⟨rfl, fun o n => rfl⟩

/-- Witness for C3 at the concrete one-driver week with one holiday. -/
theorem C3_witness :
    ("Huber".data, 1) ∈ mapC3 ∧
    countKey (uploadAvailability wsW mapC3 holsW [] []) (1, addDays wsW 0) = 1 :=
  ⟨by decide,
   C3_availability_unique_coverage.1 wsW mapC3 holsW [] [] ("Huber".data) 1 0
     (by decide) (by decide)⟩

/-! ## Before/after suffix folding (`_filter_to_base_routes`,
excel_parser.py lines 510-538) -/

/-- Embeds the Python slice `s[:-n]`. -/
def pyDropLast (s : Str) (n : Nat) : Str := s.take (s.length - n)

/-- The suffix discrimination of `_filter_to_base_routes`: the base code when
the route carries a `-vor`/`-nach` suffix, `none` otherwise. -/
def stripVN (r : Str) : Option Str :=
  if pyEndsWith r ("-vor".data) then some (pyDropLast r 4)
  else if pyEndsWith r ("-nach".data) then some (pyDropLast r 5)
  else none

/-- Whether a route code carries a before/after suffix. -/
def isVN (r : Str) : Bool :=
  pyEndsWith r ("-vor".data) || pyEndsWith r ("-nach".data)

/-- Embeds the `vor_nach_variants` dictionary update: append the variant to
the base's list, inserting the base key on first sight. -/
def addVariant (m : List (Str × List Str)) (base v : Str) : List (Str × List Str) :=
  if base ∈ m.map Prod.fst then
    m.map (fun p => if p.1 = base then (p.1, p.2 ++ [v]) else p)
  else m ++ [(base, [v])]

/-- One iteration of the classification loop of `_filter_to_base_routes`:
state is `(base_routes_in_list, vor_nach_variants, other_routes)`. -/
def vnStep (st : List Str × List (Str × List Str) × List Str) (route : Str) :
    List Str × List (Str × List Str) × List Str :=
  if pyEndsWith route ("-vor".data) then
    (st.1, addVariant st.2.1 (pyDropLast route 4) route, st.2.2)
  else if pyEndsWith route ("-nach".data) then
    (st.1, addVariant st.2.1 (pyDropLast route 5) route, st.2.2)
  else (st.1 ++ [route], st.2.1, st.2.2 ++ [route])

/-- The classification loop over the whole input list. -/
def vnFold (routes : List Str) : List Str × List (Str × List Str) × List Str :=
  routes.foldl vnStep ([], [], [])

/-- The bases appended by the second loop of `_filter_to_base_routes`: the
variant-dictionary keys not independently listed as base routes. -/
def addedBases (routes : List Str) : List Str :=
  ((vnFold routes).2.1.map Prod.fst).filter (fun b => decide (b ∉ (vnFold routes).1))

/-- Embeds `ExcelParser._filter_to_base_routes`: the kept unsuffixed codes
followed by the folded-in bases. -/
def filterToBaseRoutes (routes : List Str) : List Str :=
  (vnFold routes).2.2 ++ addedBases routes

theorem vnStep_eq (st : List Str × List (Str × List Str) × List Str) (route : Str) :
    vnStep st route =
      match stripVN route with
      | some b => (st.1, addVariant st.2.1 b route, st.2.2)
      | none => (st.1 ++ [route], st.2.1, st.2.2 ++ [route]) := by
  unfold vnStep stripVN
  split_ifs <;> rfl

theorem stripVN_none_iff {r : Str} : stripVN r = none ↔ isVN r = false := by
  unfold stripVN isVN
  split_ifs with h1 h2 <;> simp_all

theorem isVN_true_of_stripVN_some {r b : Str} (h : stripVN r = some b) :
    isVN r = true := by
  cases hv : isVN r
  · rw [stripVN_none_iff.mpr hv] at h
    cases h
  · rfl

theorem foldl_vnStep_bases (routes : List Str) :
    ∀ st, (routes.foldl vnStep st).1 = st.1 ++ routes.filter (fun r => !isVN r) := by
  induction routes with
  | nil => intro st; simp
  | cons r rs ih =>
    intro st
    rw [List.foldl_cons, ih]
    cases hs : stripVN r with
    | some b =>
      have hv := isVN_true_of_stripVN_some hs
      simp only [vnStep_eq, hs]
      rw [List.filter_cons]
      simp [hv]
    | none =>
      have hv : isVN r = false := stripVN_none_iff.mp hs
      simp only [vnStep_eq, hs]
      rw [List.filter_cons]
      simp [hv, List.append_assoc]

theorem foldl_vnStep_others (routes : List Str) :
    ∀ st, (routes.foldl vnStep st).2.2 = st.2.2 ++ routes.filter (fun r => !isVN r) := by
  induction routes with
  | nil => intro st; simp
  | cons r rs ih =>
    intro st
    rw [List.foldl_cons, ih]
    cases hs : stripVN r with
    | some b =>
      have hv := isVN_true_of_stripVN_some hs
      simp only [vnStep_eq, hs]
      rw [List.filter_cons]
      simp [hv]
    | none =>
      have hv : isVN r = false := stripVN_none_iff.mp hs
      simp only [vnStep_eq, hs]
      rw [List.filter_cons]
      simp [hv, List.append_assoc]

theorem map_fst_update (b v : Str) (m : List (Str × List Str)) :
    (m.map (fun p => if p.1 = b then (p.1, p.2 ++ [v]) else p)).map Prod.fst =
      m.map Prod.fst := by
  induction m with
  | nil => rfl
  | cons p ps ih =>
    simp only [List.map_cons, ih]
    congr 1
    split_ifs <;> rfl

theorem keys_addVariant (m : List (Str × List Str)) (b v : Str) :
    (addVariant m b v).map Prod.fst =
      if b ∈ m.map Prod.fst then m.map Prod.fst else m.map Prod.fst ++ [b] := by
  unfold addVariant
  split_ifs with h
  · exact map_fst_update b v m
  · simp

theorem foldl_vnStep_keys (routes : List Str) :
    ∀ st b, b ∈ (routes.foldl vnStep st).2.1.map Prod.fst ↔
      b ∈ st.2.1.map Prod.fst ∨ ∃ r ∈ routes, stripVN r = some b := by
  induction routes with
  | nil => intro st b; simp
  | cons r rs ih =>
    intro st b
    rw [List.foldl_cons, ih]
    cases hs : stripVN r with
    | some b' =>
      simp only [vnStep_eq, hs]
      rw [keys_addVariant]
      split_ifs with hmem
      · constructor
        · rintro (h | h)
          · exact Or.inl h
          · obtain ⟨r', hr', hstrip⟩ := h
            exact Or.inr ⟨r', List.mem_cons_of_mem r hr', hstrip⟩
        · rintro (h | ⟨r', hr', hstrip⟩)
          · exact Or.inl h
          · rcases List.mem_cons.mp hr' with heq | hr''
            · subst heq
              rw [hs] at hstrip
              obtain rfl := Option.some.inj hstrip
              exact Or.inl hmem
            · exact Or.inr ⟨r', hr'', hstrip⟩
      · rw [List.mem_append, List.mem_singleton]
        constructor
        · rintro ((h | rfl) | h)
          · exact Or.inl h
          · exact Or.inr ⟨r, List.mem_cons_self r rs, hs⟩
          · obtain ⟨r', hr', hstrip⟩ := h
            exact Or.inr ⟨r', List.mem_cons_of_mem r hr', hstrip⟩
        · rintro (h | ⟨r', hr', hstrip⟩)
          · exact Or.inl (Or.inl h)
          · rcases List.mem_cons.mp hr' with heq | hr''
            · subst heq
              rw [hs] at hstrip
              obtain rfl := Option.some.inj hstrip
              exact Or.inl (Or.inr rfl)
            · exact Or.inr ⟨r', hr'', hstrip⟩
    | none =>
      simp only [vnStep_eq, hs]
      constructor
      · rintro (h | ⟨r', hr', hstrip⟩)
        · exact Or.inl h
        · exact Or.inr ⟨r', List.mem_cons_of_mem r hr', hstrip⟩
      · rintro (h | ⟨r', hr', hstrip⟩)
        · exact Or.inl h
        · rcases List.mem_cons.mp hr' with heq | hr''
          · subst heq
            rw [hs] at hstrip
            cases hstrip
          · exact Or.inr ⟨r', hr'', hstrip⟩

theorem foldl_vnStep_keys_nodup (routes : List Str) :
    ∀ st, (st.2.1.map Prod.fst).Nodup →
      ((routes.foldl vnStep st).2.1.map Prod.fst).Nodup := by
  induction routes with
  | nil => intro st h; exact h
  | cons r rs ih =>
    intro st h
    rw [List.foldl_cons]
    apply ih
    cases hs : stripVN r with
    | some b' =>
      simp only [vnStep_eq, hs]
      rw [keys_addVariant]
      split_ifs with hmem
      · exact h
      · rw [List.nodup_append]
        exact ⟨h, List.nodup_singleton _, by simpa using hmem⟩
    | none => simpa [vnStep_eq, hs] using h

theorem vnFold_bases_eq (routes : List Str) :
    (vnFold routes).1 = routes.filter (fun r => !isVN r) := by
  unfold vnFold
  rw [foldl_vnStep_bases]
  rfl

theorem vnFold_others_eq (routes : List Str) :
    (vnFold routes).2.2 = routes.filter (fun r => !isVN r) := by
  unfold vnFold
  rw [foldl_vnStep_others]
  rfl

theorem vnFold_keys_mem (routes : List Str) (b : Str) :
    b ∈ (vnFold routes).2.1.map Prod.fst ↔ ∃ r ∈ routes, stripVN r = some b := by
  unfold vnFold
  rw [foldl_vnStep_keys]
  simp

theorem vnFold_keys_nodup (routes : List Str) :
    ((vnFold routes).2.1.map Prod.fst).Nodup :=
  foldl_vnStep_keys_nodup routes ([], [], []) (by simp)

/-! ## Claim C8 -/

/-- C8 counterexample: on input `["411-vor-vor"]` the filter strips one
suffix layer and emits `"411-vor"`, which still ends in `-vor` — refuting
"the filtered result contains no code ending in `-vor` or `-nach`" as a
universal statement over all inputs. -/
theorem C8_counterexample :
    filterToBaseRoutes ["411-vor-vor".data] = ["411-vor".data] ∧
    isVN ("411-vor".data) = true := by
  constructor
  · rfl
  · decide

/-- C8 (amended): provided no input code carries a doubled suffix (stripping
one `-vor`/`-nach` layer never leaves a code that still ends in
`-vor`/`-nach`), the filtered result contains no suffixed code; every
unsuffixed input code is kept unconditionally; and a base having at least one
variant in the input is added to the result exactly once if it is not
independently listed among the unsuffixed input codes, and zero times if it
is. -/
theorem C8_amended_suffix_folding (routes : List Str) :
    ((∀ r ∈ routes, ∀ b, stripVN r = some b → isVN b = false) →
      ∀ x ∈ filterToBaseRoutes routes, isVN x = false) ∧
    (∀ r ∈ routes, isVN r = false → r ∈ filterToBaseRoutes routes) ∧
    (∀ b, (∃ r ∈ routes, stripVN r = some b) →
      (b ∉ routes.filter (fun r => !isVN r) →
        (addedBases routes).countP (fun x => decide (x = b)) = 1) ∧
      (b ∈ routes.filter (fun r => !isVN r) →
        (addedBases routes).countP (fun x => decide (x = b)) = 0)) := by
  refine ⟨?_, ?_, ?_⟩
  · intro H x hx
    unfold filterToBaseRoutes at hx
    rcases List.mem_append.mp hx with hx | hx
    · rw [vnFold_others_eq] at hx
      simpa using (List.mem_filter.mp hx).2
    · have hxk : x ∈ (vnFold routes).2.1.map Prod.fst := (List.mem_filter.mp hx).1
      obtain ⟨r, hr, hstrip⟩ := (vnFold_keys_mem routes x).mp hxk
      exact H r hr x hstrip
  · intro r hr hv
    unfold filterToBaseRoutes
    refine List.mem_append.mpr (Or.inl ?_)
    rw [vnFold_others_eq]
    exact List.mem_filter.mpr ⟨hr, by simp [hv]⟩
  · intro b hvar
    have hbk : b ∈ (vnFold routes).2.1.map Prod.fst := (vnFold_keys_mem routes b).mpr hvar
    constructor
    · intro hnot
      have hmem : b ∈ addedBases routes := by
        unfold addedBases
        refine List.mem_filter.mpr ⟨hbk, ?_⟩
        rw [vnFold_bases_eq]
        simp only [decide_eq_true_eq]
        exact hnot
      exact countP_eq_one_of_nodup_mem ((vnFold_keys_nodup routes).filter _) hmem
    · intro hin
      rw [List.countP_eq_zero]
      intro x hx
      simp only [decide_eq_true_eq]
      rintro rfl
      have hpred := (List.mem_filter.mp hx).2
      rw [vnFold_bases_eq] at hpred
      simp only [decide_eq_true_eq] at hpred
      exact hpred hin

/-- Witness input for C8: two variants of `412`, one of `413`, and `411`
listed plain. -/
def routesWit : List Str :=
  ["411".data, "412-vor".data, "412-nach".data, "413-nach".data]

/-- Witness for C8's amended statement on a concrete activation column. -/
theorem C8_witness :
    isVN ("412".data) = false ∧
    "411".data ∈ filterToBaseRoutes routesWit ∧
    (addedBases routesWit).countP (fun x => decide (x = "412".data)) = 1 :=
  ⟨(C8_amended_suffix_folding routesWit).1 (by decide) ("412".data) (by decide),
   (C8_amended_suffix_folding routesWit).2.1 ("411".data) (by decide) (by decide),
   ((C8_amended_suffix_folding routesWit).2.2 ("412".data) (by decide)).1 (by decide)⟩
